import Mathlib

/-!
Verification development for the var_viper snapshot renderer
(src/var_viper.py).

The Python module renders a snapshot of named values into one HTML
document.  This file gives a shallow embedding of its size-budgeted
rendering pipeline and of the client-side heatmap routine, and proves
or refutes the frozen behavioural claims about them.

Modelling conventions:
* Python strings are Lean `String`s; byte sizes are measured as
  character counts (all markup emitted by the pipeline is ASCII, where
  the two coincide).
* `pandas.DataFrame.to_html` is an external library call.  It is
  modelled by a concrete renderer (`dfToHtmlWith`) that produces one
  header row and one `<tr>` per data row; only its length and its
  `<table` prefix are ever relied upon, matching how the source uses
  it (length sampling in `estimate_df_limit`, prefix test in
  `render_recursive_html`).
* Python float division inside `estimate_df_limit` is modelled exactly
  over `ℚ`; `int(...)` on a positive quotient is `Int.floor`.
* Exceptions are modelled by `Except String`; a Python value whose
  `str()` raises is the `Value.obj` constructor with an `Except.error`
  representation.
-/

/-- `TARGET_BYTES_PER_VAR` from src/var_viper.py line 17: 15 MiB per variable. -/
def TARGET_BYTES_PER_VAR : ℕ := 15 * 1024 * 1024

/-- `ABSOLUTE_ROW_LIMIT` from src/var_viper.py line 20. -/
def ABSOLUTE_ROW_LIMIT : ℕ := 200000

/-- A pandas DataFrame, reduced to what the pipeline observes: column
labels and rows of cell display strings. -/
structure DataFrame where
  cols : List String
  rows : List (List String)

/-- `df.head(k)`: the first `k` rows. -/
def dfHead (k : ℕ) (df : DataFrame) : DataFrame :=
  ⟨df.cols, df.rows.take k⟩

/-- Header markup of the `to_html` model. -/
def dfHeaderHtml (cols : List String) : String :=
  "<thead><tr><th></th>" ++ String.join (cols.map (fun c => "<th>" ++ c ++ "</th>")) ++
    "</tr></thead>"

/-- One body row of the `to_html` model (`i` is the integer index label). -/
def dfRowHtml (i : ℕ) (r : List String) : String :=
  "<tr><th>" ++ toString i ++ "</th>" ++
    String.join (r.map (fun x => "<td>" ++ x ++ "</td>")) ++ "</tr>"

/-- Body markup of the `to_html` model. -/
def dfBodyHtml (rows : List (List String)) : String :=
  "<tbody>" ++ String.join (rows.enum.map (fun p => dfRowHtml p.1 p.2)) ++ "</tbody>"

/-- Model of `DataFrame.to_html(border=0, classes=...)`: an external
pandas call, rendered as one header row plus one `<tr>` per data row.
`cls` is the extra class list (empty for the sampling call). -/
def dfToHtmlWith (cls : String) (df : DataFrame) : String :=
  "<table border=\"0\" class=\"dataframe" ++ cls ++ "\">" ++
    dfHeaderHtml df.cols ++ dfBodyHtml df.rows ++ "</table>"

/-- `df.to_html(border=0)` as called by `estimate_df_limit` (line 70). -/
def dfToHtmlPlain (df : DataFrame) : String := dfToHtmlWith "" df

/-- `df.to_html(classes='styled-table heatmap-table', border=0)` as called
by the display paths (lines 107, 147, 150, 215, 219). -/
def dfToHtmlStyled (df : DataFrame) : String :=
  dfToHtmlWith " styled-table heatmap-table" df

/-- The sampled `bytes_per_row` of `estimate_df_limit`
(src/var_viper.py lines 68-74): render the first `min(5, total)` rows,
subtract the overhead constant 100, divide by the sample size.
Exact rational arithmetic models the Python float division. -/
def bytesPerRow (df : DataFrame) : ℚ :=
  (((dfToHtmlPlain (dfHead (min 5 df.rows.length) df)).length : ℚ) - 100) /
    ((min 5 df.rows.length : ℕ) : ℚ)

/-- The clamp stage of `estimate_df_limit` (lines 76-81): a nonpositive
`bytes_per_row` is replaced by 1, the projected row count is
`int(TARGET_BYTES_PER_VAR / bytes_per_row)`, clamped to
`[50, ABSOLUTE_ROW_LIMIT]`. -/
def limitOfBpr (bpr : ℚ) : ℕ :=
  max 50 (min
    (Int.floor ((TARGET_BYTES_PER_VAR : ℚ) /
      (if bpr ≤ 0 then (1 : ℚ) else bpr))).toNat
    ABSOLUTE_ROW_LIMIT)

/-- `estimate_df_limit` (src/var_viper.py lines 61-81). -/
def estimate_df_limit (df : DataFrame) : ℕ :=
  if df.rows.length = 0 then 0 else limitOfBpr (bytesPerRow df)

theorem limitOfBpr_le (b : ℚ) : limitOfBpr b ≤ 200000 := by
  unfold limitOfBpr ABSOLUTE_ROW_LIMIT
  omega

theorem limitOfBpr_ge (b : ℚ) : 50 ≤ limitOfBpr b := by
  unfold limitOfBpr
  omega

theorem limitOfBpr_of_nonpos (b : ℚ) (h : b ≤ 0) : limitOfBpr b = 200000 := by
  unfold limitOfBpr ABSOLUTE_ROW_LIMIT
  rw [if_pos h, div_one, Int.floor_natCast, Int.toNat_natCast]
  unfold TARGET_BYTES_PER_VAR
  omega

theorem limitOfBpr_antitone (b b' : ℚ) (h : b ≤ b') : limitOfBpr b' ≤ limitOfBpr b := by
  by_cases hb' : b' ≤ 0
  · have hb : b ≤ 0 := le_trans h hb'
    rw [limitOfBpr_of_nonpos b hb, limitOfBpr_of_nonpos b' hb']
  · by_cases hb : b ≤ 0
    · rw [limitOfBpr_of_nonpos b hb]
      exact limitOfBpr_le b'
    · push_neg at hb hb'
      unfold limitOfBpr
      rw [if_neg (not_le.mpr hb), if_neg (not_le.mpr hb')]
      have hdiv : (TARGET_BYTES_PER_VAR : ℚ) / b' ≤ (TARGET_BYTES_PER_VAR : ℚ) / b := by
        gcongr
      have hfl : Int.floor ((TARGET_BYTES_PER_VAR : ℚ) / b') ≤
          Int.floor ((TARGET_BYTES_PER_VAR : ℚ) / b) := Int.floor_le_floor hdiv
      have htn := Int.toNat_le_toNat hfl
      omega

/-- Claim C6: for every tabular input with zero rows, `estimate_df_limit`
returns 0 (the zero check precedes any sampling); for at least one row,
the returned limit lies in `[50, 200000]`. -/
theorem c6_estimator_zero_and_bounds (df : DataFrame) :
    (df.rows.length = 0 → estimate_df_limit df = 0) ∧
    (df.rows.length ≠ 0 →
      50 ≤ estimate_df_limit df ∧ estimate_df_limit df ≤ 200000) := by
  constructor
  · intro h
    simp [estimate_df_limit, h]
  · intro h
    rw [estimate_df_limit, if_neg h]
    exact ⟨limitOfBpr_ge _, limitOfBpr_le _⟩

/-- Witness for C6 at concrete inputs: an empty single-column frame gets
limit 0, and a one-row frame gets a limit within the clamp bounds. -/
theorem c6_witness :
    estimate_df_limit ⟨["Value"], []⟩ = 0 ∧
    (50 ≤ estimate_df_limit ⟨["Value"], [["7"]]⟩ ∧
      estimate_df_limit ⟨["Value"], [["7"]]⟩ ≤ 200000) :=
  ⟨(c6_estimator_zero_and_bounds ⟨["Value"], []⟩).1 (by decide),
   (c6_estimator_zero_and_bounds ⟨["Value"], [["7"]]⟩).2 (by decide)⟩

/-- Claim C9: with the byte budget fixed, the limit for non-empty tabular
input is a deterministic function of the sampled `bytes_per_row`
(identical samples give identical limits), and is non-increasing as the
sampled `bytes_per_row` grows. -/
theorem c9_estimator_deterministic_antitone (d d' : DataFrame)
    (hd : d.rows.length ≠ 0) (hd' : d'.rows.length ≠ 0) :
    (bytesPerRow d = bytesPerRow d' →
      estimate_df_limit d = estimate_df_limit d') ∧
    (bytesPerRow d ≤ bytesPerRow d' →
      estimate_df_limit d' ≤ estimate_df_limit d) := by
  rw [estimate_df_limit, if_neg hd, estimate_df_limit, if_neg hd']
  exact ⟨fun h => by rw [h], fun h => limitOfBpr_antitone _ _ h⟩

/-- Witness for C9 at concrete one-row frames (a short cell and a longer
cell). -/
theorem c9_witness :
    (bytesPerRow ⟨["Value"], [["7"]]⟩ = bytesPerRow ⟨["Value"], [["7777777"]]⟩ →
      estimate_df_limit ⟨["Value"], [["7"]]⟩ =
        estimate_df_limit ⟨["Value"], [["7777777"]]⟩) ∧
    (bytesPerRow ⟨["Value"], [["7"]]⟩ ≤ bytesPerRow ⟨["Value"], [["7777777"]]⟩ →
      estimate_df_limit ⟨["Value"], [["7777777"]]⟩ ≤
        estimate_df_limit ⟨["Value"], [["7"]]⟩) :=
  c9_estimator_deterministic_antitone _ _ (by decide) (by decide)

/-- Python `html.escape(s)` (quote=True): the per-character expansion of
`&`, `<`, `>`, `"` and the apostrophe. -/
def escChar (c : Char) : List Char :=
  if c = '&' then "&amp;".data
  else if c = '<' then "&lt;".data
  else if c = '>' then "&gt;".data
  else if c = '"' then "&quot;".data
  else if c = '\x27' then "&#x27;".data
  else [c]

/-- Python `html.escape` on a whole string. -/
def htmlEscape (s : String) : String := ⟨(s.data.map escChar).flatten⟩

/-- `pat` occurs contiguously inside `s`. -/
def containsSub (pat s : String) : Prop :=
  ∃ a b : List Char, s.data = a ++ (pat.data ++ b)

theorem containsSub_self (p : String) : containsSub p p :=
  ⟨[], [], by simp⟩

theorem containsSub_app_left (p s t : String) (h : containsSub p s) :
    containsSub p (t ++ s) := by
  obtain ⟨a, b, hab⟩ := h
  exact ⟨t.data ++ a, b, by simp [hab]⟩

theorem containsSub_app_right (p s t : String) (h : containsSub p s) :
    containsSub p (s ++ t) := by
  obtain ⟨a, b, hab⟩ := h
  exact ⟨a, b ++ t.data, by simp [hab]⟩

/-- Python `str.startswith(pre)`, on the character data (the built-in
`String.startsWith` is not kernel-reducible). -/
def pyStartsWith (s pre : String) : Bool := pre.data.isPrefixOf s.data

/-- Python `str.strip()`. -/
def pyStrip (s : String) : String :=
  ⟨((s.data.dropWhile Char.isWhitespace).reverse.dropWhile Char.isWhitespace).reverse⟩

/-- A numpy array as the pipeline observes it: 1-D and 2-D arrays carry
their cell display strings; an array of rank > 2 carries its first-axis
slices (each of rank one lower). -/
inductive NDArray where
  | one (xs : List String)
  | two (rows : List (List String))
  | higher (slices : List NDArray)

/-- `arr.shape` as a dimension list (display only). -/
def shapeDims : NDArray → List ℕ
  | .one xs => [xs.length]
  | .two rows => [rows.length, (rows.headD []).length]
  | .higher s => s.length :: (match s with
      | [] => []
      | x :: _ => shapeDims x)

/-- `str(arr.shape)`: Python tuple printing. -/
def shapeStr (a : NDArray) : String :=
  "(" ++ String.intercalate ", " ((shapeDims a).map toString) ++
    (if (shapeDims a).length = 1 then ",)" else ")")

/-- A captured Python value, restricted to the variants the renderer
dispatches on (src/var_viper.py lines 209-230 and 141-183).  `scalar`
carries `type(val).__name__` and `str(val)`; `obj` is any other object,
whose `str()` may raise (modelled by `Except`).  Callables and modules
never reach the renderer (filtered at lines 200-201). -/
inductive Value where
  | str (s : String)
  | scalar (ty : String) (s : String)
  | df (cols : List String) (rows : List (List String))
  | series (name : String) (xs : List String)
  | arr (a : NDArray)
  | dict (entries : List (String × Value))
  | vlist (items : List Value)
  | obj (ty : String) (strRepr : Except String String)

mutual
/-- Termination measure on arrays (weights chosen so that slicing
strictly decreases the measure). -/
def aSize : NDArray → ℕ
  | .one _ => 0
  | .two _ => 0
  | .higher s => 5 + aSizeList s
def aSizeList : List NDArray → ℕ
  | [] => 0
  | x :: xs => (2 + aSize x) + aSizeList xs
end

mutual
/-- Termination measure on values. -/
def vSize : Value → ℕ
  | .arr a => 1 + aSize a
  | .dict es => 3 + vSizeEntries es
  | .vlist items => 3 + vSizeList items
  | _ => 1
def vSizeEntries : List (String × Value) → ℕ
  | [] => 0
  | e :: es => (1 + vSize e.2) + vSizeEntries es
def vSizeList : List Value → ℕ
  | [] => 0
  | v :: vs => (1 + vSize v) + vSizeList vs
end

/-- `enumerate(data)` for a list value: the integer indices become the
displayed keys. -/
def listEntries (items : List Value) : List (String × Value) :=
  items.enum.map (fun p => (toString p.1, p.2))

/-- `val.to_frame()` for a pandas Series: a one-column frame labelled by
the series name. -/
def seriesToFrame (name : String) (xs : List String) : DataFrame :=
  ⟨[name], xs.map (fun x => [x])⟩

/-- The temporary frame of `format_array` (lines 90-94), built from only
the first 10 rows of the array. -/
def arrTempDF : NDArray → DataFrame
  | .one xs => ⟨["Value"], (xs.take 10).map (fun x => [x])⟩
  | .two rows => ⟨(List.range ((rows.headD []).length)).map toString, rows.take 10⟩
  | .higher _ => ⟨[], []⟩

/-- The row limit `format_array` applies to a rank ≤ 2 array
(line 96): the shared estimator, run on the temporary frame. -/
def arrLimit (a : NDArray) : ℕ := estimate_df_limit (arrTempDF a)

/-- The truncation marker `format_array` appends (line 110). -/
def truncMarkerArr (limit total : ℕ) : String :=
  "<div style=\x27padding:5px; color:#75715e; font-style:italic\x27>(Showing first " ++
    toString limit ++ " rows of " ++ toString total ++
    " - Limited by display size)</div>"

/-- `format_array` on a rank ≤ 2 array (lines 86-111): truncate along
the first axis when it exceeds the estimated limit, render through the
`to_html` model, append the marker iff truncated. -/
def formatArrayFlat : NDArray → String
  | .one xs =>
      (if xs.length > arrLimit (.one xs) then
        dfToHtmlStyled ⟨["Value"], (xs.take (arrLimit (.one xs))).map (fun x => [x])⟩ ++
          truncMarkerArr (arrLimit (.one xs)) xs.length
      else
        dfToHtmlStyled ⟨["Value"], xs.map (fun x => [x])⟩)
  | .two rows =>
      (if rows.length > arrLimit (.two rows) then
        dfToHtmlStyled ⟨(List.range (((rows.take (arrLimit (.two rows))).headD []).length)).map toString,
            rows.take (arrLimit (.two rows))⟩ ++
          truncMarkerArr (arrLimit (.two rows)) rows.length
      else
        dfToHtmlStyled ⟨(List.range ((rows.headD []).length)).map toString, rows⟩)
  | .higher _ => ""

/-- The sliced dictionary `format_array` builds for a rank > 2 array
(lines 112-121): at most 50 labelled slices, then one string
placeholder iff more remain. -/
def sliceEntries (slices : List NDArray) : List (String × Value) :=
  ((slices.take 50).enum.map (fun p => ("Slice " ++ toString p.1, Value.arr p.2)))
    ++ (if 50 < slices.length then
          [("...", Value.str ("And " ++ toString (slices.length - 50) ++ " more slices..."))]
        else [])

/-- `format_array` (lines 85-121): a rank ≤ 2 array renders to an HTML
string, a rank > 2 array to the sliced dictionary. -/
def format_array : NDArray → String ⊕ List (String × Value)
  | .one xs => Sum.inl (formatArrayFlat (.one xs))
  | .two rows => Sum.inl (formatArrayFlat (.two rows))
  | .higher s => Sum.inr (sliceEntries s)

/-- The single truncation notice of the tree renderer (line 135). -/
def truncNotice (remaining : ℕ) : String :=
  "<li style=\"color: #75715e; font-style: italic; margin-top:5px;\">... and " ++
    toString remaining ++ " more items (truncated for performance) ...</li>"

/-- The nested-table markup of the tree renderer (lines 144-150):
like the top-level tabular path but with a shorter marker. -/
def treeTableHtml (df : DataFrame) : String :=
  if df.rows.length > estimate_df_limit df then
    dfToHtmlStyled (dfHead (estimate_df_limit df) df) ++
      "<div style=\x27padding:5px; color:#75715e\x27>(Showing first " ++
      toString (estimate_df_limit df) ++ " rows of " ++ toString df.rows.length ++
      ")</div>"
  else dfToHtmlStyled df

/-- One `<li>` item for a DataFrame/Series entry (lines 139-155). -/
def itemDF (key : String) (df : DataFrame) : String :=
  "<li>" ++ "<details><summary><span class=\"key\">" ++ key ++
    "</span> <span class=\"meta type-tag\">DataFrame (" ++ toString df.rows.length ++
    "x" ++ toString df.cols.length ++ ")</span></summary>" ++
    "<div class=\"table-wrapper\">" ++ treeTableHtml df ++ "</div>" ++
    "</details>" ++ "</li>"

/-- One `<li>` item for a rank > 2 array entry (lines 159-163). -/
def itemArrNested (key : String) (a : NDArray) (inner : String) : String :=
  "<li>" ++ "<details><summary><span class=\"key\">" ++ key ++
    "</span> <span class=\"meta type-tag\">Array " ++ shapeStr a ++
    "</span></summary>" ++ inner ++ "</details>" ++ "</li>"

/-- One `<li>` item for a rank ≤ 2 array entry (lines 164-168). -/
def itemArrFlat (key : String) (a : NDArray) (formatted : String) : String :=
  "<li>" ++ "<details><summary><span class=\"key\">" ++ key ++
    "</span> <span class=\"meta type-tag\">Array " ++ shapeStr a ++
    "</span></summary>" ++ "<div class=\"table-wrapper\">" ++ formatted ++
    "</div>" ++ "</details>" ++ "</li>"

/-- One `<li>` item for a nested dict/list entry (lines 170-175); the
first level defaults to open. -/
def itemContainer (key : String) (n level : ℕ) (inner : String) : String :=
  "<li>" ++ "<details " ++ (if level < 1 then "open" else "") ++
    "><summary><span class=\"key\">" ++ key ++
    "</span> <span class=\"meta\">[" ++ toString n ++ " items]</span></summary>" ++
    inner ++ "</details>" ++ "</li>"

/-- One `<li>` item for a pre-rendered table-slice string (lines 177-180). -/
def itemTableSlice (key : String) (val : String) : String :=
  "<li>" ++ "<details><summary><span class=\"key\">" ++ key ++
    "</span> <span class=\"meta\">[Table Slice]</span></summary>" ++
    "<div class=\"table-wrapper\">" ++ val ++ "</div>" ++ "</details>" ++ "</li>"

/-- One `<li>` item for the escaped-text fallback (lines 181-183). -/
def itemPlainRow (key : String) (safeVal : String) : String :=
  "<li>" ++ "<div class=\"row-item\"><span class=\"key\">" ++ key ++
    ": </span><span class=\"val\">" ++ safeVal ++ "</span></div>" ++ "</li>"

theorem vSizeEntries_enumFrom_map (items : List Value) :
    ∀ n, vSizeEntries ((items.enumFrom n).map (fun p => (toString p.1, p.2)))
      = vSizeList items := by
  induction items with
  | nil => intro n; rfl
  | cons v vs ih => intro n; simp only [List.enumFrom, List.map, vSizeEntries, vSizeList, ih]

theorem vSizeEntries_listEntries (items : List Value) :
    vSizeEntries (listEntries items) = vSizeList items := by
  simpa [listEntries, List.enum] using vSizeEntries_enumFrom_map items 0

theorem vSizeEntries_append (l r : List (String × Value)) :
    vSizeEntries (l ++ r) = vSizeEntries l + vSizeEntries r := by
  induction l with
  | nil => simp [vSizeEntries]
  | cons e es ih => simp [vSizeEntries, ih]; omega

theorem vSizeEntries_slices_enumFrom (xs : List NDArray) :
    ∀ n, vSizeEntries ((xs.enumFrom n).map (fun p => ("Slice " ++ toString p.1, Value.arr p.2)))
      = aSizeList xs := by
  induction xs with
  | nil => intro n; rfl
  | cons x xs ih =>
      intro n
      simp only [List.enumFrom, List.map, vSizeEntries, aSizeList, ih, vSize]
      omega

theorem aSizeList_take_le (xs : List NDArray) (n : ℕ) :
    aSizeList (xs.take n) ≤ aSizeList xs := by
  induction xs generalizing n with
  | nil => simp [List.take]
  | cons x rest ih =>
      cases n with
      | zero => simp [List.take, aSizeList]
      | succ m => simp only [List.take, aSizeList]; have := ih m; omega

theorem sliceEntries_size (s : List NDArray) :
    2 + vSizeEntries (sliceEntries s) < vSize (Value.arr (NDArray.higher s)) := by
  have h1 : vSizeEntries ((s.take 50).enum.map
      (fun p => ("Slice " ++ toString p.1, Value.arr p.2))) = aSizeList (s.take 50) := by
    simpa [List.enum] using vSizeEntries_slices_enumFrom (s.take 50) 0
  have h2 := aSizeList_take_le s 50
  simp only [sliceEntries, vSizeEntries_append, h1, vSize, aSize]
  by_cases h : 50 < s.length
  · simp only [if_pos h, vSizeEntries, vSize]
    omega
  · simp only [if_neg h, vSizeEntries, vSize]
    omega

mutual
/-- `render_recursive_html` (src/var_viper.py lines 123-192) on the
entry list of a dict (its items) or list (its enumeration).  The body
is the iteration; the `<ul>` wrapper is attached here. -/
def render_recursive_html (entries : List (String × Value)) (level : ℕ) :
    Except String String := do
  let body ← renderEntries entries.length 0 0 level entries
  pure ("<ul class=\"tree\">" ++ body ++ "</ul>")
termination_by 2 + vSizeEntries entries

/-- The `for key, val in iterator` loop of `render_recursive_html`
(lines 131-189): `total` is `len(data)`, `count` the number of entries
already rendered, `curLen` the running byte counter.  Before rendering
each fetched entry the budget is checked (line 133); once exceeded the
single truncation notice is emitted and iteration stops. -/
def renderEntries (total count curLen level : ℕ) (es : List (String × Value)) :
    Except String String :=
  match es with
  | [] => .ok ""
  | (k, v) :: rest =>
    if TARGET_BYTES_PER_VAR < curLen then .ok (truncNotice (total - count))
    else do
      let item ← renderItem k v level
      let restHtml ← renderEntries total (count + 1) (curLen + item.length) level rest
      pure (item ++ restHtml)
termination_by 1 + vSizeEntries es
decreasing_by
  all_goals simp only [vSizeEntries]
  all_goals omega

/-- One `<li>` item of the loop body (lines 139-185), dispatching on the
entry value exactly as the isinstance chain does.  For an array,
`format_array` returns a dict precisely for rank > 2 (constructor
`higher`), so the `isinstance(formatted, dict)` test is resolved by the
constructor. -/
def renderItem (key : String) (v : Value) (level : ℕ) : Except String String :=
  match v with
  | .df cols rows => .ok (itemDF key ⟨cols, rows⟩)
  | .series name xs => .ok (itemDF key (seriesToFrame name xs))
  | .arr (.higher s) => do
      let inner ← render_recursive_html (sliceEntries s) (level + 1)
      pure (itemArrNested key (NDArray.higher s) inner)
  | .arr (.one xs) => .ok (itemArrFlat key (NDArray.one xs) (formatArrayFlat (.one xs)))
  | .arr (.two rows) => .ok (itemArrFlat key (NDArray.two rows) (formatArrayFlat (.two rows)))
  | .dict es => do
      let inner ← render_recursive_html es (level + 1)
      pure (itemContainer key es.length level inner)
  | .vlist items => do
      let inner ← render_recursive_html (listEntries items) (level + 1)
      pure (itemContainer key items.length level inner)
  | .str s =>
      if pyStartsWith (pyStrip s) "<table" then .ok (itemTableSlice key s)
      else .ok (itemPlainRow key (htmlEscape s))
  | .scalar _ s => .ok (itemPlainRow key (htmlEscape s))
  | .obj _ r =>
      match r with
      | .ok s => .ok (itemPlainRow key (htmlEscape s))
      | .error e => .error e
termination_by vSize v
decreasing_by
  · exact sliceEntries_size s
  · simp only [vSize]
    omega
  · simp only [vSize, vSizeEntries_listEntries]
    omega
end

/-- The tree wrapper of `show` (lines 224, 228). -/
def treeWrap (s : String) : String :=
  "<div class=\x27tree-wrapper\x27>" ++ s ++ "</div>"

/-- The text box of `show` for scalars, strings and other objects
(line 230). -/
def textBox (escaped : String) : String :=
  "<div class=\x27text-box\x27>" ++ escaped ++ "</div>"

/-- The truncation marker `show` appends for a truncated table
(line 216). -/
def truncMarkerShow (limit total : ℕ) : String :=
  "<div style=\x27padding:10px; color:#75715e; font-style:italic\x27>(Showing first " ++
    toString limit ++ " rows of " ++ toString total ++
    " - Limited by display size)</div>"

/-- The tabular branch of `show` (lines 209-219): estimate the limit,
truncate and attach the marker iff the row count exceeds it. -/
def formatDF (df : DataFrame) : String :=
  if df.rows.length > estimate_df_limit df then
    dfToHtmlStyled (dfHead (estimate_df_limit df) df) ++
      truncMarkerShow (estimate_df_limit df) df.rows.length
  else dfToHtmlStyled df

/-- The `try` body of `show` for one value (lines 208-230): the
content fragment, or the propagated exception. -/
def renderValue : Value → Except String String
  | .df cols rows => .ok (formatDF ⟨cols, rows⟩)
  | .series name xs => .ok (formatDF (seriesToFrame name xs))
  | .arr a =>
      match format_array a with
      | .inl s => .ok s
      | .inr entries => (render_recursive_html entries 0).map treeWrap
  | .dict es => (render_recursive_html es 0).map treeWrap
  | .vlist items => (render_recursive_html (listEntries items) 0).map treeWrap
  | .str s => .ok (textBox (htmlEscape s))
  | .scalar _ s => .ok (textBox (htmlEscape s))
  | .obj _ r =>
      match r with
      | .ok s => .ok (textBox (htmlEscape s))
      | .error e => .error e

/-- `type(val).__name__` for the modelled variants. -/
def typeName : Value → String
  | .str _ => "str"
  | .scalar ty _ => ty
  | .df _ _ => "DataFrame"
  | .series _ _ => "Series"
  | .arr _ => "ndarray"
  | .dict _ => "dict"
  | .vlist _ => "list"
  | .obj ty _ => ty

/-- `get_preview_info` (lines 24-59).  The numeric min/max decorations
for arrays and lists depend on dtypes the model does not carry and are
elided (they decorate the sidebar only); every other branch, including
the quoted 20-character string preview and the `-` fallback for opaque
objects, follows the source. -/
def get_preview_info : Value → String
  | .df cols rows =>
      "Shape: (" ++ toString rows.length ++ ", " ++ toString cols.length ++ ")"
  | .series _ xs => "Shape: (" ++ toString xs.length ++ ",)"
  | .arr a => "Shape: " ++ shapeStr a
  | .vlist items => "Length: " ++ toString items.length
  | .dict es => "Length: " ++ toString es.length
  | .scalar _ s => "Value: " ++ s
  | .str s =>
      "\"" ++ (if 20 < s.length then (⟨s.data.take 20⟩ : String) ++ "..." else s) ++ "\""
  | .obj _ _ => "-"

/-- The name filter of `show` (lines 199, 202).  The callable/module
filters (lines 200-201) act on values outside the modelled variants. -/
def skipName (n : String) : Bool :=
  pyStartsWith n "_" ||
    (["var_viper", "pd", "np", "sys", "os", "html", "json", "tempfile",
      "webbrowser", "types", "traceback"].contains n)

/-- The error fragment of `show` (line 232). -/
def errorFragment (name msg : String) : String :=
  "<div class=\x27error-box\x27>Error processing variable \x27" ++ name ++
    "\x27: " ++ msg ++ "</div>"

/-- The content stored for one kept name (lines 206-232): the rendered
fragment, or the error box when formatting raised. -/
def contentOf (name : String) (v : Value) : String :=
  match renderValue v with
  | .ok h => h
  | .error e => errorFragment name e

/-- A sidebar summary entry (line 234). -/
structure SummaryEntry where
  id : String
  type : String
  size : String
deriving DecidableEq

/-- `show` (lines 194-237): filter the snapshot, then produce the
summary list and the content map (as an association list in snapshot
order). -/
def showVars (vars : List (String × Value)) :
    List SummaryEntry × List (String × String) :=
  ((vars.filter (fun p => !skipName p.1)).map
      (fun p => ⟨p.1, typeName p.2, get_preview_info p.2⟩),
   (vars.filter (fun p => !skipName p.1)).map
      (fun p => (p.1, contentOf p.1 p.2)))

theorem containsSub_trans (p q s : String) (hpq : containsSub p q)
    (hqs : containsSub q s) : containsSub p s := by
  obtain ⟨a, b, hab⟩ := hqs
  obtain ⟨c, d, hcd⟩ := hpq
  exact ⟨a ++ c, d ++ b, by simp [hab, hcd]⟩

theorem containsSub_marker_shown (shown tot : ℕ) :
    containsSub (toString shown) (truncMarkerShow shown tot) := by
  unfold truncMarkerShow
  exact containsSub_app_right _ _ _ (containsSub_app_right _ _ _
    (containsSub_app_right _ _ _ (containsSub_app_left _ _ _ (containsSub_self _))))

theorem containsSub_marker_total (shown tot : ℕ) :
    containsSub (toString tot) (truncMarkerShow shown tot) := by
  unfold truncMarkerShow
  exact containsSub_app_right _ _ _ (containsSub_app_left _ _ _ (containsSub_self _))

theorem containsSub_markerArr_shown (shown tot : ℕ) :
    containsSub (toString shown) (truncMarkerArr shown tot) := by
  unfold truncMarkerArr
  exact containsSub_app_right _ _ _ (containsSub_app_right _ _ _
    (containsSub_app_right _ _ _ (containsSub_app_left _ _ _ (containsSub_self _))))

theorem containsSub_markerArr_total (shown tot : ℕ) :
    containsSub (toString tot) (truncMarkerArr shown tot) := by
  unfold truncMarkerArr
  exact containsSub_app_right _ _ _ (containsSub_app_left _ _ _ (containsSub_self _))

/-- Claim C4: a tabular fragment carries the truncation marker, stating
`shown = limit` and `total = total_rows`, exactly when `total_rows`
exceeds the computed limit; otherwise the fragment is the plain
rendering with nothing attached.  Stated for the `show` tabular branch
(DataFrame and Series both format through `formatDF`) and for the two
rank ≤ 2 array shapes of `format_array`. -/
theorem c4_truncation_marker (df : DataFrame) (xs : List String)
    (rows : List (List String)) (shown tot : ℕ) :
    (estimate_df_limit df < df.rows.length →
      formatDF df = dfToHtmlStyled (dfHead (estimate_df_limit df) df) ++
        truncMarkerShow (estimate_df_limit df) df.rows.length) ∧
    (df.rows.length ≤ estimate_df_limit df → formatDF df = dfToHtmlStyled df) ∧
    (arrLimit (.one xs) < xs.length →
      formatArrayFlat (.one xs) =
        dfToHtmlStyled ⟨["Value"], (xs.take (arrLimit (.one xs))).map (fun x => [x])⟩ ++
          truncMarkerArr (arrLimit (.one xs)) xs.length) ∧
    (xs.length ≤ arrLimit (.one xs) →
      formatArrayFlat (.one xs) = dfToHtmlStyled ⟨["Value"], xs.map (fun x => [x])⟩) ∧
    (arrLimit (.two rows) < rows.length →
      formatArrayFlat (.two rows) =
        dfToHtmlStyled ⟨(List.range (((rows.take (arrLimit (.two rows))).headD []).length)).map toString,
            rows.take (arrLimit (.two rows))⟩ ++
          truncMarkerArr (arrLimit (.two rows)) rows.length) ∧
    (rows.length ≤ arrLimit (.two rows) →
      formatArrayFlat (.two rows) =
        dfToHtmlStyled ⟨(List.range ((rows.headD []).length)).map toString, rows⟩) ∧
    containsSub (toString shown) (truncMarkerShow shown tot) ∧
    containsSub (toString tot) (truncMarkerShow shown tot) ∧
    containsSub (toString shown) (truncMarkerArr shown tot) ∧
    containsSub (toString tot) (truncMarkerArr shown tot) := by
  refine ⟨?_, ?_, ?_, ?_, ?_, ?_,
    containsSub_marker_shown shown tot, containsSub_marker_total shown tot,
    containsSub_markerArr_shown shown tot, containsSub_markerArr_total shown tot⟩
  · intro h
    rw [formatDF, if_pos h]
  · intro h
    rw [formatDF, if_neg (by omega)]
  · intro h
    rw [formatArrayFlat, if_pos h]
  · intro h
    rw [formatArrayFlat, if_neg (by omega)]
  · intro h
    rw [formatArrayFlat, if_pos h]
  · intro h
    rw [formatArrayFlat, if_neg (by omega)]

/-- Witness for C4: an empty frame and empty arrays are at or below any
limit, hence rendered plain; the markers at `shown = 3`, `total = 9`
contain both counts. -/
theorem c4_witness :
    formatDF ⟨["A"], []⟩ = dfToHtmlStyled ⟨["A"], []⟩ ∧
    formatArrayFlat (.one []) = dfToHtmlStyled ⟨["Value"], List.map (fun x => [x]) []⟩ ∧
    containsSub (toString 3) (truncMarkerShow 3 9) ∧
    containsSub (toString 9) (truncMarkerShow 3 9) :=
  ⟨(c4_truncation_marker ⟨["A"], []⟩ [] [] 3 9).2.1 (Nat.zero_le _),
   (c4_truncation_marker ⟨["A"], []⟩ [] [] 3 9).2.2.2.1 (Nat.zero_le _),
   (c4_truncation_marker ⟨["A"], []⟩ [] [] 3 9).2.2.2.2.2.2.1,
   (c4_truncation_marker ⟨["A"], []⟩ [] [] 3 9).2.2.2.2.2.2.2.1⟩

/-- Claim C7: the slicer on a rank > 2 array yields exactly
`min(first_axis_length, 50)` labelled slices (the i-th labelled
`Slice i` and holding the i-th sub-array), followed by exactly one
string placeholder iff the first axis exceeds 50; the total entry
count never exceeds 51. -/
theorem c7_array_slicer (slices : List NDArray) :
    format_array (NDArray.higher slices) = Sum.inr (sliceEntries slices) ∧
    (sliceEntries slices).length
      = min slices.length 50 + (if 50 < slices.length then 1 else 0) ∧
    (sliceEntries slices).length ≤ 51 ∧
    (∀ i, i < min slices.length 50 →
      (sliceEntries slices).get? i
        = (slices.get? i).map (fun s => ("Slice " ++ toString i, Value.arr s))) ∧
    (50 < slices.length →
      (sliceEntries slices).get? 50
        = some ("...", Value.str ("And " ++ toString (slices.length - 50) ++ " more slices..."))) ∧
    (sliceEntries slices).countP (fun e => e.1 == "...")
      = (if 50 < slices.length then 1 else 0) := by
  have hlen : ((slices.take 50).enum.map
      (fun p => ("Slice " ++ toString p.1, Value.arr p.2))).length = min slices.length 50 := by
    simp [List.length_take, Nat.min_comm]
  refine ⟨rfl, ?_, ?_, ?_, ?_, ?_⟩
  · unfold sliceEntries
    rw [List.length_append, hlen]
    by_cases h : 50 < slices.length
    · simp [h]
    · simp [h]
  · unfold sliceEntries
    rw [List.length_append, hlen]
    by_cases h : 50 < slices.length
    · simp [h]
      all_goals omega
    · simp [h]
      all_goals omega
  · intro i hi
    unfold sliceEntries
    rw [List.get?_append (by rw [hlen]; omega)]
    rw [List.get?_map, List.get?_enum, List.get?_take (by omega)]
    cases h : slices.get? i with
    | none => rfl
    | some s => rfl
  · intro h
    unfold sliceEntries
    rw [List.get?_append_right (by rw [hlen]; omega)]
    rw [hlen]
    have : min slices.length 50 = 50 := by omega
    rw [this]
    simp [h]
  · unfold sliceEntries
    rw [List.countP_append]
    have h0 : ((slices.take 50).enum.map
        (fun p => ("Slice " ++ toString p.1, Value.arr p.2))).countP
          (fun e => e.1 == "...") = 0 := by
      rw [List.countP_eq_zero]
      intro p hp
      obtain ⟨q, _, hq⟩ := List.mem_map.mp hp
      rw [← hq]
      simp only [beq_iff_eq]
      intro hcontr
      have hlen2 := congrArg String.length hcontr
      rw [String.length_append] at hlen2
      have h6 : ("Slice " : String).length = 6 := rfl
      have h3 : ("..." : String).length = 3 := rfl
      rw [h6, h3] at hlen2
      omega
    rw [h0]
    by_cases h : 50 < slices.length
    · simp [h]
    · simp [h]

/-- Witness for C7 at a concrete 3-slice array (no placeholder) checking
the labelled entry at index 1. -/
theorem c7_witness :
    (sliceEntries [NDArray.one ["a"], NDArray.one ["b"], NDArray.one ["c"]]).get? 1
      = ((([NDArray.one ["a"], NDArray.one ["b"], NDArray.one ["c"]] : List NDArray).get? 1).map
          (fun s => ("Slice " ++ toString 1, Value.arr s))) :=
  (c7_array_slicer [NDArray.one ["a"], NDArray.one ["b"], NDArray.one ["c"]]).2.2.2.1 1 (by decide)

theorem bytesPerRow_congr (d d' : DataFrame) (hc : d.cols = d'.cols)
    (hl : min 5 d.rows.length = min 5 d'.rows.length)
    (hs : d.rows.take 5 = d'.rows.take 5) : bytesPerRow d = bytesPerRow d' := by
  unfold bytesPerRow dfHead
  rw [hc, hl]
  have htk : d.rows.take (min 5 d'.rows.length) = d'.rows.take (min 5 d'.rows.length) := by
    calc d.rows.take (min 5 d'.rows.length)
        = (d.rows.take 5).take (min 5 d'.rows.length) := by
          rw [List.take_take]
          congr 1
          omega
      _ = (d'.rows.take 5).take (min 5 d'.rows.length) := by rw [hs]
      _ = d'.rows.take (min 5 d'.rows.length) := by
          rw [List.take_take]
          congr 1
          omega
  rw [htk]

theorem estimate_df_limit_congr (d d' : DataFrame) (hc : d.cols = d'.cols)
    (hl : min 5 d.rows.length = min 5 d'.rows.length)
    (hz : d.rows.length = 0 ↔ d'.rows.length = 0)
    (hs : d.rows.take 5 = d'.rows.take 5) :
    estimate_df_limit d = estimate_df_limit d' := by
  unfold estimate_df_limit
  by_cases h : d'.rows.length = 0
  · rw [if_pos (hz.mpr h), if_pos h]
  · rw [if_neg (fun hh => h (hz.mp hh)), if_neg h,
      bytesPerRow_congr d d' hc hl hs]

/-- Modelled from the spec (4.2 rules 1 and 2): the row limit the Size
Estimator returns "against the full data", wrapping a 1-D array as a
single labelled column.  This is the spec-side comparator for the
refinement claim C10; the source-side quantity is `arrLimit`, which
`format_array` computes from a 10-row temporary frame. -/
def specFullWrapLimit : NDArray → ℕ
  | .one xs => estimate_df_limit ⟨["Value"], xs.map (fun x => [x])⟩
  | .two rows => estimate_df_limit ⟨(List.range ((rows.headD []).length)).map toString, rows⟩
  | .higher _ => 0

/-- Claim C10: the row limit `format_array` actually applies (estimated
from a temporary frame holding only the first 10 rows) coincides with
the limit the Size Estimator would return on the full array wrapped as
tabular data, for both rank ≤ 2 shapes. -/
theorem c10_array_limit_refines_spec :
    (∀ xs : List String, arrLimit (.one xs) = specFullWrapLimit (.one xs)) ∧
    (∀ rows : List (List String), arrLimit (.two rows) = specFullWrapLimit (.two rows)) := by
  constructor
  · intro xs
    unfold arrLimit arrTempDF specFullWrapLimit
    apply estimate_df_limit_congr
    · rfl
    · simp only [List.length_map, List.length_take]
      omega
    · simp only [List.length_map, List.length_take]
      omega
    · show ((xs.take 10).map (fun x => [x])).take 5 = (xs.map (fun x => [x])).take 5
      rw [← List.map_take, ← List.map_take, List.take_take]
      have h510 : (5 : ℕ) ⊓ 10 = 5 := by omega
      rw [h510]
  · intro rows
    unfold arrLimit arrTempDF specFullWrapLimit
    apply estimate_df_limit_congr
    · rfl
    · simp only [List.length_take]
      omega
    · simp only [List.length_take]
      omega
    · show (rows.take 10).take 5 = rows.take 5
      rw [List.take_take]
      have h510 : (5 : ℕ) ⊓ 10 = 5 := by omega
      rw [h510]

theorem escChar_a : escChar 'a' = ['a'] := by decide

theorem htmlEscape_replicate_a (n : ℕ) :
    (htmlEscape ⟨List.replicate n 'a'⟩).length = n := by
  show ((List.replicate n 'a').map escChar).flatten.length = n
  induction n with
  | zero => rfl
  | succ k ih =>
      rw [List.replicate_succ, List.map_cons, List.flatten_cons, List.length_append,
        escChar_a, ih]
      simp only [List.length_cons, List.length_nil]
      omega

theorem textBox_length (s : String) : (textBox s).length = s.length + 28 := by
  unfold textBox
  rw [String.length_append, String.length_append]
  have h1 : ("<div class=\x27text-box\x27>" : String).length = 22 := rfl
  have h2 : ("</div>" : String).length = 6 := rfl
  rw [h1, h2]
  omega

/-- Counterexample to claim C1: the scalar/string branch of `show`
(line 230) wraps the escaped string in a fixed 28-character box and
never truncates, so the fragment stored for a string one character
longer than the budget exceeds `TARGET_BYTES_PER_VAR`. -/
theorem c1_counterexample :
    TARGET_BYTES_PER_VAR <
      (contentOf "s" (Value.str ⟨List.replicate (TARGET_BYTES_PER_VAR + 1) 'a'⟩)).length := by
  have h : contentOf "s" (Value.str ⟨List.replicate (TARGET_BYTES_PER_VAR + 1) 'a'⟩)
      = textBox (htmlEscape ⟨List.replicate (TARGET_BYTES_PER_VAR + 1) 'a'⟩) := rfl
  rw [h, textBox_length, htmlEscape_replicate_a]
  omega

/-- Claim C1 (amended): the per-value byte budget does not bound
scalar/string fragments at all — such a fragment is exactly the escaped
content plus a 28-character wrapper, so it exceeds the budget whenever
the escaped content does; the budget only gates the tree renderer,
which stops rendering further entries once its running counter exceeds
`TARGET_BYTES_PER_VAR`. -/
theorem c1_fragment_size_law (name s : String) (total count curLen level : ℕ)
    (k : String) (v : Value) (rest : List (String × Value))
    (h : TARGET_BYTES_PER_VAR < curLen) :
    (contentOf name (Value.str s)).length = (htmlEscape s).length + 28 ∧
    renderEntries total count curLen level ((k, v) :: rest)
      = .ok (truncNotice (total - count)) := by
  constructor
  · have heq : contentOf name (Value.str s) = textBox (htmlEscape s) := rfl
    rw [heq, textBox_length]
  · rw [renderEntries.eq_def]
    simp [h]

/-- Witness for the amended C1 at concrete inputs. -/
theorem c1_witness :
    (contentOf "x" (Value.str "ab")).length = (htmlEscape "ab").length + 28 ∧
    renderEntries 3 1 15728641 0 [("k", Value.scalar "int" "1")]
      = .ok (truncNotice 2) :=
  c1_fragment_size_law "x" "ab" 3 1 15728641 0 "k" (Value.scalar "int" "1") []
    (by decide)

theorem showRel_content (n : String) (vars vars' : List (String × Value))
    (h : List.Forall₂ (fun p q => p.1 = q.1 ∧ (p.1 ≠ n → p.2 = q.2)) vars vars') :
    List.Forall₂ (fun p q : String × String => p.1 = q.1 ∧ (p.1 ≠ n → p.2 = q.2))
      ((vars.filter (fun p => !skipName p.1)).map (fun p => (p.1, contentOf p.1 p.2)))
      ((vars'.filter (fun p => !skipName p.1)).map (fun p => (p.1, contentOf p.1 p.2))) := by
  induction h with
  | nil => exact List.Forall₂.nil
  | cons hab hrest ih =>
      rename_i a b l1 l2
      obtain ⟨hk, hv⟩ := hab
      rw [List.filter_cons, List.filter_cons, hk]
      by_cases hs : skipName b.1
      · rw [if_neg (by simp [hs]), if_neg (by simp [hs])]
        exact ih
      · rw [if_pos (by simp [hs]), if_pos (by simp [hs]), List.map_cons, List.map_cons]
        refine List.Forall₂.cons ⟨hk, fun hne => ?_⟩ ih
        have hne2 : a.1 ≠ n := hne
        have hv2 : a.2 = b.2 := hv hne2
        show contentOf a.1 a.2 = contentOf b.1 b.2
        rw [hk, hv2]

theorem showRel_summary (n : String) (vars vars' : List (String × Value))
    (h : List.Forall₂ (fun p q => p.1 = q.1 ∧ (p.1 ≠ n → p.2 = q.2)) vars vars') :
    List.Forall₂ (fun p q : SummaryEntry => p.id = q.id ∧ (p.id ≠ n → p = q))
      ((vars.filter (fun p => !skipName p.1)).map
        (fun p => ⟨p.1, typeName p.2, get_preview_info p.2⟩))
      ((vars'.filter (fun p => !skipName p.1)).map
        (fun p => ⟨p.1, typeName p.2, get_preview_info p.2⟩)) := by
  induction h with
  | nil => exact List.Forall₂.nil
  | cons hab hrest ih =>
      rename_i a b l1 l2
      obtain ⟨hk, hv⟩ := hab
      rw [List.filter_cons, List.filter_cons, hk]
      by_cases hs : skipName b.1
      · rw [if_neg (by simp [hs]), if_neg (by simp [hs])]
        exact ih
      · rw [if_pos (by simp [hs]), if_pos (by simp [hs]), List.map_cons, List.map_cons]
        refine List.Forall₂.cons ⟨hk, fun hne => ?_⟩ ih
        have hne2 : a.1 ≠ n := hne
        have hv2 : a.2 = b.2 := hv hne2
        show (⟨a.1, typeName a.2, get_preview_info a.2⟩ : SummaryEntry)
          = ⟨b.1, typeName b.2, get_preview_info b.2⟩
        rw [hk, hv2]

/-- Claim C2: when formatting one named value raises, `show` catches it
locally (lines 231-232): the stored fragment is the error box carrying
the name and the failure reason, the summary entry is still appended,
and — comparing against any snapshot that agrees on every other name —
all other fragments and summary entries are unchanged. -/
theorem c2_per_value_failure_isolated (vars vars' : List (String × Value))
    (n : String) (v : Value) (e : String)
    (hmem : (n, v) ∈ vars) (hskip : skipName n = false)
    (herr : renderValue v = Except.error e)
    (hrel : List.Forall₂ (fun p q => p.1 = q.1 ∧ (p.1 ≠ n → p.2 = q.2)) vars vars') :
    (n, errorFragment n e) ∈ (showVars vars).2 ∧
    containsSub n (errorFragment n e) ∧
    containsSub e (errorFragment n e) ∧
    (∃ entry, entry ∈ (showVars vars).1 ∧ entry.id = n) ∧
    List.Forall₂ (fun p q : String × String => p.1 = q.1 ∧ (p.1 ≠ n → p.2 = q.2))
      (showVars vars).2 (showVars vars').2 ∧
    List.Forall₂ (fun p q : SummaryEntry => p.id = q.id ∧ (p.id ≠ n → p = q))
      (showVars vars).1 (showVars vars').1 := by
  have hkeep : (n, v) ∈ vars.filter (fun p => !skipName p.1) :=
    List.mem_filter.mpr ⟨hmem, by simp [hskip]⟩
  refine ⟨?_, ?_, ?_, ?_, ?_, ?_⟩
  · have h1 : ((n, v).1, contentOf (n, v).1 (n, v).2) ∈ (showVars vars).2 :=
      List.mem_map_of_mem _ hkeep
    have h2 : contentOf n v = errorFragment n e := by
      simp [contentOf, herr]
    simpa [h2] using h1
  · unfold errorFragment
    exact containsSub_app_right _ _ _ (containsSub_app_right _ _ _
      (containsSub_app_right _ _ _ (containsSub_app_left _ _ _ (containsSub_self _))))
  · unfold errorFragment
    exact containsSub_app_right _ _ _ (containsSub_app_left _ _ _ (containsSub_self _))
  · exact ⟨⟨n, typeName v, get_preview_info v⟩,
      List.mem_map_of_mem _ hkeep, rfl⟩
  · exact showRel_content n vars vars' hrel
  · exact showRel_summary n vars vars' hrel

/-- Witness for C2: a snapshot whose first value raises `boom` stores
the error box for it; the second snapshot replaces only that value. -/
theorem c2_witness :
    ("bad", errorFragment "bad" "boom") ∈
      (showVars [("bad", Value.obj "Foo" (Except.error "boom")),
                 ("y", Value.scalar "int" "1")]).2 ∧
    List.Forall₂ (fun p q : String × String => p.1 = q.1 ∧ (p.1 ≠ "bad" → p.2 = q.2))
      (showVars [("bad", Value.obj "Foo" (Except.error "boom")),
                 ("y", Value.scalar "int" "1")]).2
      (showVars [("bad", Value.scalar "int" "2"),
                 ("y", Value.scalar "int" "1")]).2 := by
  have h := c2_per_value_failure_isolated
    [("bad", Value.obj "Foo" (Except.error "boom")), ("y", Value.scalar "int" "1")]
    [("bad", Value.scalar "int" "2"), ("y", Value.scalar "int" "1")]
    "bad" (Value.obj "Foo" (Except.error "boom")) "boom"
    (List.mem_cons_self _ _) (by decide) rfl
    (List.Forall₂.cons ⟨rfl, fun hne => absurd rfl hne⟩
      (List.Forall₂.cons ⟨rfl, fun _ => rfl⟩ List.Forall₂.nil))
  exact ⟨h.1, h.2.2.2.2.1⟩

/-- The rendered length of each entry of a list, `none` if some entry
raises.  Used to express where the tree renderer's running counter
crosses the budget. -/
def renderLens (level : ℕ) : List (String × Value) → Option (List ℕ)
  | [] => some []
  | (k, v) :: rest =>
      match renderItem k v level with
      | .ok s => (renderLens level rest).map (fun ls => s.length :: ls)
      | .error _ => none

theorem renderEntries_cons_cut (t c l lv : ℕ) (k : String) (v : Value)
    (rest : List (String × Value)) (h : TARGET_BYTES_PER_VAR < l) :
    renderEntries t c l lv ((k, v) :: rest) = .ok (truncNotice (t - c)) := by
  rw [renderEntries.eq_def]
  simp [h]

theorem renderEntries_cons_ok (t c l lv : ℕ) (k : String) (v : Value)
    (rest : List (String × Value)) (s : String)
    (hc : ¬ TARGET_BYTES_PER_VAR < l) (hitem : renderItem k v lv = .ok s) :
    renderEntries t c l lv ((k, v) :: rest)
      = (renderEntries t (c + 1) (l + s.length) lv rest).map (fun r => s ++ r) := by
  rw [renderEntries.eq_def]
  simp only [if_neg hc, hitem]
  cases h2 : renderEntries t (c + 1) (l + s.length) lv rest <;>
    simp [h2, Except.map, Except.bind, Bind.bind, Functor.map, Pure.pure, Except.pure]

theorem renderEntries_no_access (level : ℕ) (pre : List (String × Value)) :
    ∀ (ls : List ℕ) (t c curLen : ℕ) (rest1 rest2 : List (String × Value)),
      renderLens level pre = some ls →
      TARGET_BYTES_PER_VAR < curLen + ls.sum →
      rest1.length = rest2.length →
      renderEntries t c curLen level (pre ++ rest1)
        = renderEntries t c curLen level (pre ++ rest2) := by
  induction pre with
  | nil =>
      intro ls t c curLen rest1 rest2 hlens hover hlen
      have hls : ls = [] := by
        have : (some [] : Option (List ℕ)) = some ls := hlens
        exact (Option.some.inj this).symm
      subst hls
      simp only [List.sum_nil, Nat.add_zero] at hover
      cases rest1 with
      | nil =>
          cases rest2 with
          | nil => rfl
          | cons e2 r2 => simp at hlen
      | cons e1 r1 =>
          cases rest2 with
          | nil => simp at hlen
          | cons e2 r2 =>
              obtain ⟨k1, v1⟩ := e1
              obtain ⟨k2, v2⟩ := e2
              rw [List.nil_append, List.nil_append,
                renderEntries_cons_cut t c curLen level k1 v1 r1 hover,
                renderEntries_cons_cut t c curLen level k2 v2 r2 hover]
  | cons p ps ih =>
      intro ls t c curLen rest1 rest2 hlens hover hlen
      obtain ⟨pk, pv⟩ := p
      by_cases hc : TARGET_BYTES_PER_VAR < curLen
      · rw [List.cons_append, List.cons_append,
          renderEntries_cons_cut t c curLen level pk pv _ hc,
          renderEntries_cons_cut t c curLen level pk pv _ hc]
      · cases hitem : renderItem pk pv level with
        | error e =>
            rw [renderLens, hitem] at hlens
            simp at hlens
        | ok s =>
            rw [renderLens, hitem] at hlens
            rcases Option.map_eq_some'.mp hlens with ⟨ls', hls', hcons⟩
            rw [List.cons_append, List.cons_append,
              renderEntries_cons_ok t c curLen level pk pv _ s hc hitem,
              renderEntries_cons_ok t c curLen level pk pv _ s hc hitem,
              ih ls' t (c + 1) (curLen + s.length) rest1 rest2 hls'
                (by rw [← hcons] at hover; simp [List.sum_cons] at hover; omega) hlen]

/-- Claim C3: once the running byte counter of the tree renderer exceeds
`TARGET_BYTES_PER_VAR`, the next loop iteration emits exactly the single
truncation notice naming the number of entries not rendered (the fetched
one plus all remaining) and stops; and the output depends on the entries
past the cutoff only through their count — replacing them by any
other entries of the same number (even entries whose rendering would
raise) leaves the output unchanged, so no such entry is touched. -/
theorem c3_tree_cutoff_no_access (total count curLen curLen0 level t2 c2 : ℕ)
    (k : String) (v : Value)
    (rest pre rest1 rest2 : List (String × Value)) (ls : List ℕ)
    (hcut : TARGET_BYTES_PER_VAR < curLen)
    (htot : total = count + (1 + rest.length))
    (hlens : renderLens level pre = some ls)
    (hover : TARGET_BYTES_PER_VAR < curLen0 + ls.sum)
    (hlen : rest1.length = rest2.length) :
    renderEntries total count curLen level ((k, v) :: rest)
      = .ok (truncNotice (1 + rest.length)) ∧
    renderEntries t2 c2 curLen0 level (pre ++ rest1)
      = renderEntries t2 c2 curLen0 level (pre ++ rest2) := by
  constructor
  · rw [renderEntries_cons_cut _ _ _ _ _ _ _ hcut]
    have harith : total - count = 1 + rest.length := by omega
    rw [harith]
  · exact renderEntries_no_access level pre ls t2 c2 curLen0 rest1 rest2 hlens hover hlen

/-- Witness for C3: with the counter already over budget, a one-entry
list yields only the notice; and an over-budget state renders the same
whether the pending entry is a plain scalar or a value whose
formatting raises. -/
theorem c3_witness :
    renderEntries 2 1 15728650 0 [("a", Value.str "s")] = .ok (truncNotice 1) ∧
    renderEntries 5 0 15728641 0 ([] ++ [("x", Value.scalar "int" "1")])
      = renderEntries 5 0 15728641 0 ([] ++ [("y", Value.obj "Bad" (Except.error "boom"))]) :=
  c3_tree_cutoff_no_access 2 1 15728650 15728641 0 5 0 "a" (Value.str "s")
    [] [] [("x", Value.scalar "int" "1")] [("y", Value.obj "Bad" (Except.error "boom"))] []
    (by decide) (by decide) rfl (by decide) rfl

/-- A list nested `d` levels deep with a sentinel string at the bottom. -/
def nestList : ℕ → Value
  | 0 => Value.str "DEEPSENTINEL"
  | d + 1 => Value.vlist [nestList d]

theorem renderItem_vlist (key : String) (items : List Value) (lv : ℕ) :
    renderItem key (.vlist items) lv
      = (render_recursive_html (listEntries items) (lv + 1)).map
          (fun inner => itemContainer key items.length lv inner) := by
  rw [renderItem.eq_def]
  cases h : render_recursive_html (listEntries items) (lv + 1) <;>
    simp [h, Except.map, Except.bind, Bind.bind, Functor.map, Pure.pure, Except.pure]

theorem rrh_one (v : Value) (lv : ℕ) (s : String)
    (h : renderItem (toString 0) v lv = .ok s) :
    render_recursive_html (listEntries [v]) lv
      = .ok ("<ul class=\"tree\">" ++ (s ++ "") ++ "</ul>") := by
  have hle : listEntries [v] = [(toString 0, v)] := rfl
  rw [render_recursive_html.eq_def, hle]
  have hlen : ([(toString 0, v)] : List (String × Value)).length = 1 := rfl
  rw [hlen]
  rw [renderEntries_cons_ok 1 0 0 lv (toString 0) v [] s
    (by simp [TARGET_BYTES_PER_VAR]) h]
  rw [renderEntries.eq_def]
  simp [Except.map, Except.bind, Bind.bind, Functor.map, Pure.pure, Except.pure]

theorem renderItem_nest (d : ℕ) : ∀ level, ∃ s,
    renderItem (toString 0) (nestList d) level = Except.ok s ∧
    containsSub "DEEPSENTINEL" s := by
  induction d with
  | zero =>
      intro level
      refine ⟨itemPlainRow (toString 0) (htmlEscape "DEEPSENTINEL"), ?_, ?_⟩
      · rw [show nestList 0 = Value.str "DEEPSENTINEL" from rfl, renderItem.eq_def]
        simp [show pyStartsWith (pyStrip "DEEPSENTINEL") "<table" = false from by decide]
      · have he : htmlEscape "DEEPSENTINEL" = "DEEPSENTINEL" := by decide
        rw [he]
        unfold itemPlainRow
        exact containsSub_app_right _ _ _ (containsSub_app_right _ _ _
          (containsSub_app_left _ _ _ (containsSub_self _)))
  | succ d ih =>
      intro level
      obtain ⟨s, hs, hc⟩ := ih (level + 1)
      refine ⟨itemContainer (toString 0) 1 level
        ("<ul class=\"tree\">" ++ (s ++ "") ++ "</ul>"), ?_, ?_⟩
      · rw [show nestList (d + 1) = Value.vlist [nestList d] from rfl,
          renderItem_vlist, rrh_one (nestList d) (level + 1) s hs]
        rfl
      · have h1 : containsSub "DEEPSENTINEL" (s ++ "") :=
          containsSub_app_right _ _ _ hc
        have h2 : containsSub "DEEPSENTINEL"
            ("<ul class=\"tree\">" ++ (s ++ "") ++ "</ul>") :=
          containsSub_app_right _ _ _ (containsSub_app_left _ _ _ h1)
        unfold itemContainer
        exact containsSub_app_right _ _ _ (containsSub_app_right _ _ _
          (containsSub_app_left _ _ _ h2))

/-- Claim C5 (code divergence): `render_recursive_html` enforces no
depth guard at all — its `level` parameter only selects the `open`
attribute.  A list nested 60 levels deep (beyond the claimed bound of
50) renders successfully and in full: the innermost sentinel appears in
the output, so rendering neither stopped nor failed at any depth. -/
theorem c5_no_depth_guard :
    ∃ s, renderValue (nestList 60) = Except.ok s ∧ containsSub "DEEPSENTINEL" s := by
  obtain ⟨s, hs, hc⟩ := renderItem_nest 59 0
  have hr := rrh_one (nestList 59) 0 s hs
  refine ⟨treeWrap ("<ul class=\"tree\">" ++ (s ++ "") ++ "</ul>"), ?_, ?_⟩
  · rw [show nestList 60 = Value.vlist [nestList 59] from rfl]
    rw [show renderValue (Value.vlist [nestList 59])
        = (render_recursive_html (listEntries [nestList 59]) 0).map treeWrap from rfl]
    rw [hr]
    rfl
  · have h1 : containsSub "DEEPSENTINEL" (s ++ "") :=
      containsSub_app_right _ _ _ hc
    have h2 : containsSub "DEEPSENTINEL"
        ("<ul class=\"tree\">" ++ (s ++ "") ++ "</ul>") :=
      containsSub_app_right _ _ _ (containsSub_app_left _ _ _ h1)
    unfold treeWrap
    exact containsSub_app_right _ _ _ (containsSub_app_left _ _ _ h2)

/-- JS `String.prototype.trim()` on a cell's text content. -/
def jsTrim (s : String) : String :=
  ⟨((s.data.dropWhile Char.isWhitespace).reverse.dropWhile Char.isWhitespace).reverse⟩

/-- The placeholder test of `applyHeatmap` (line 739): empty, `NaN` and
`None` cells are skipped without affecting column colorability. -/
def isSkipCell (t : String) : Bool := t = "" || t = "NaN" || t = "None"

/-- Decimal digit run value. -/
def digitsVal (ds : List Char) : ℕ :=
  ds.foldl (fun a c => 10 * a + (c.toNat - 48)) 0

/-- JS `parseFloat` on decimal numerals, over `ℚ`: optional sign,
digits with an optional decimal point (at least one digit), optional
exponent; the longest valid prefix parses, anything with no leading
numeral is NaN (`none`).  The IEEE rounding of the double result and
the non-finite `Infinity` literal lie outside the rational model. -/
def parseFloatQ (s : String) : Option ℚ :=
  let cs := s.data.dropWhile Char.isWhitespace
  let sgn : ℚ := match cs with | '-' :: _ => -1 | _ => 1
  let cs1 := match cs with | '+' :: r => r | '-' :: r => r | _ => cs
  let ip := cs1.takeWhile Char.isDigit
  let r1 := cs1.dropWhile Char.isDigit
  let fp := match r1 with | '.' :: r => r.takeWhile Char.isDigit | _ => []
  let r2 := match r1 with | '.' :: r => r.dropWhile Char.isDigit | _ => r1
  if ip.isEmpty && fp.isEmpty then none
  else
    let mant : ℚ := sgn * ((digitsVal (ip ++ fp) : ℚ) / ((10 : ℚ) ^ fp.length))
    let ex : ℤ :=
      match r2 with
      | c :: r =>
          if c = 'e' ∨ c = 'E' then
            let esgn : ℤ := match r with | '-' :: _ => -1 | _ => 1
            let r3 := match r with | '+' :: t => t | '-' :: t => t | _ => r
            let eds := r3.takeWhile Char.isDigit
            if eds.isEmpty then 0 else esgn * (digitsVal eds : ℤ)
          else 0
      | [] => 0
    some (mant * (10 : ℚ) ^ ex)

/-- Pass 1 of `applyHeatmap` for one column (lines 735-744): walk the
rows, skip placeholder cells, break (discarding the whole column) at
the first cell that fails to parse, collect `(rowIndex, value)`
otherwise. -/
def collectColAux (c : ℕ) (r : ℕ) (rows : List (List String)) :
    Option (List (ℕ × ℚ)) :=
  match rows with
  | [] => some []
  | row :: rest =>
      if isSkipCell (jsTrim (row.getD c "")) then collectColAux c (r + 1) rest
      else
        match parseFloatQ (jsTrim (row.getD c "")) with
        | none => none
        | some q => (collectColAux c (r + 1) rest).map (fun cells => (r, q) :: cells)

/-- All colorable cells of the table (lines 734-750): columns 1 and
beyond whose every non-placeholder cell parses; tagged with their
(row, column) position.  (An all-placeholder column contributes the
empty list, as in the `colValues.length > 0` guard.) -/
def colorableCells (rows : List (List String)) : List ((ℕ × ℕ) × ℚ) :=
  ((List.range ((rows.headD []).length)).drop 1).bind (fun c =>
    match collectColAux c 0 rows with
    | some cells => cells.map (fun p => ((p.1, c), p.2))
    | none => [])

/-- `Math.min(...allValues)` (line 754). -/
def heatMin (rows : List (List String)) : ℚ :=
  match (colorableCells rows).map (fun p => p.2) with
  | [] => 0
  | v :: vs => vs.foldl min v

/-- `Math.max(...allValues)` (line 755). -/
def heatMax (rows : List (List String)) : ℚ :=
  match (colorableCells rows).map (fun p => p.2) with
  | [] => 0
  | v :: vs => vs.foldl max v

/-- `applyHeatmap` (lines 725-764): the cells that receive a colour,
as `((row, col), (red, blue))` with the two ramp channels from the
linear map on the single global range.  `Math.round` is round-half-up,
Mathlib's `round`. -/
def applyHeatmap (rows : List (List String)) : List ((ℕ × ℕ) × (ℤ × ℤ)) :=
  if rows.isEmpty then [] else
  if (colorableCells rows).isEmpty then [] else
  if heatMin rows = heatMax rows then [] else
  (colorableCells rows).map (fun p =>
    (p.1, (round ((255 : ℚ) * ((p.2 - heatMin rows) / (heatMax rows - heatMin rows))),
           round ((255 : ℚ) * (1 - (p.2 - heatMin rows) / (heatMax rows - heatMin rows))))))

theorem foldl_min_le_init (v : ℚ) (vs : List ℚ) : vs.foldl min v ≤ v := by
  induction vs generalizing v with
  | nil => exact le_refl v
  | cons y ys ih => exact le_trans (ih (min v y)) (min_le_left v y)

theorem foldl_min_le_mem (x : ℚ) (vs : List ℚ) :
    ∀ v : ℚ, x ∈ vs → vs.foldl min v ≤ x := by
  induction vs with
  | nil => intro v hx; cases hx
  | cons y ys ih =>
      intro v hx
      rw [List.foldl_cons]
      rcases List.mem_cons.mp hx with h | h
      · subst h
        exact le_trans (foldl_min_le_init (min v x) ys) (min_le_right v x)
      · exact ih (min v y) h

theorem foldl_max_ge_init (v : ℚ) (vs : List ℚ) : v ≤ vs.foldl max v := by
  induction vs generalizing v with
  | nil => exact le_refl v
  | cons y ys ih => exact le_trans (le_max_left v y) (ih (max v y))

theorem foldl_max_ge_mem (x : ℚ) (vs : List ℚ) :
    ∀ v : ℚ, x ∈ vs → x ≤ vs.foldl max v := by
  induction vs with
  | nil => intro v hx; cases hx
  | cons y ys ih =>
      intro v hx
      rw [List.foldl_cons]
      rcases List.mem_cons.mp hx with h | h
      · subst h
        exact le_trans (le_max_right v x) (foldl_max_ge_init (max v x) ys)
      · exact ih (max v y) h

theorem heatMin_le (rows : List (List String)) (p : (ℕ × ℕ) × ℚ)
    (hp : p ∈ colorableCells rows) : heatMin rows ≤ p.2 := by
  have hv : p.2 ∈ (colorableCells rows).map (fun p => p.2) :=
    List.mem_map_of_mem _ hp
  unfold heatMin
  cases hm : (colorableCells rows).map (fun p => p.2) with
  | nil => rw [hm] at hv; cases hv
  | cons v vs =>
      rw [hm] at hv
      rcases List.mem_cons.mp hv with h | h
      · rw [← h]
        show List.foldl min p.2 vs ≤ p.2
        exact foldl_min_le_init p.2 vs
      · show List.foldl min v vs ≤ p.2
        exact foldl_min_le_mem p.2 vs v h

theorem le_heatMax (rows : List (List String)) (p : (ℕ × ℕ) × ℚ)
    (hp : p ∈ colorableCells rows) : p.2 ≤ heatMax rows := by
  have hv : p.2 ∈ (colorableCells rows).map (fun p => p.2) :=
    List.mem_map_of_mem _ hp
  unfold heatMax
  cases hm : (colorableCells rows).map (fun p => p.2) with
  | nil => rw [hm] at hv; cases hv
  | cons v vs =>
      rw [hm] at hv
      rcases List.mem_cons.mp hv with h | h
      · rw [← h]
        show p.2 ≤ List.foldl max p.2 vs
        exact foldl_max_ge_init p.2 vs
      · show p.2 ≤ List.foldl max v vs
        exact foldl_max_ge_mem p.2 vs v h

theorem collectColAux_mem (cc : ℕ) (rows : List (List String)) :
    ∀ (r0 : ℕ) (cells : List (ℕ × ℚ)), collectColAux cc r0 rows = some cells →
      ∀ r q, (r, q) ∈ cells →
        r0 ≤ r ∧ parseFloatQ (jsTrim ((rows.getD (r - r0) []).getD cc "")) = some q := by
  induction rows with
  | nil =>
      intro r0 cells hcol r q hm
      rw [collectColAux] at hcol
      cases Option.some.inj hcol
      cases hm
  | cons row rest ih =>
      intro r0 cells hcol r q hm
      rw [collectColAux] at hcol
      by_cases hskip : isSkipCell (jsTrim (row.getD cc "")) = true
      · rw [if_pos hskip] at hcol
        obtain ⟨hr, hp⟩ := ih (r0 + 1) cells hcol r q hm
        refine ⟨by omega, ?_⟩
        have hidx : r - r0 = (r - (r0 + 1)) + 1 := by omega
        rw [hidx]
        simpa using hp
      · rw [if_neg hskip] at hcol
        cases hpf : parseFloatQ (jsTrim (row.getD cc "")) with
        | none => rw [hpf] at hcol; cases hcol
        | some q0 =>
            rw [hpf] at hcol
            rcases Option.map_eq_some'.mp hcol with ⟨cells', hcells', hcons⟩
            subst hcons
            rcases List.mem_cons.mp hm with h | h
            · have h1 : r = r0 := congrArg Prod.fst h
              have h2 : q = q0 := congrArg Prod.snd h
              subst h1
              subst h2
              refine ⟨le_refl r, ?_⟩
              have hidx : r - r = 0 := by omega
              rw [hidx]
              simpa using hpf
            · obtain ⟨hr, hp⟩ := ih (r0 + 1) cells' hcells' r q h
              refine ⟨by omega, ?_⟩
              have hidx : r - r0 = (r - (r0 + 1)) + 1 := by omega
              rw [hidx]
              simpa using hp

theorem one_le_of_mem_drop_range (n c : ℕ) (h : c ∈ (List.range n).drop 1) :
    1 ≤ c := by
  cases n with
  | zero => simp [List.range_zero] at h
  | succ m =>
      rw [List.range_succ_eq_map] at h
      simp only [List.drop_succ_cons, List.drop_zero] at h
      rcases List.mem_map.mp h with ⟨x, _, hx⟩
      omega

theorem mem_colorableCells (rows : List (List String)) (r cc : ℕ) (q : ℚ)
    (hmem : ((r, cc), q) ∈ colorableCells rows) :
    1 ≤ cc ∧ parseFloatQ (jsTrim ((rows.getD r []).getD cc "")) = some q ∧
      collectColAux cc 0 rows ≠ none := by
  unfold colorableCells at hmem
  rcases List.mem_bind.mp hmem with ⟨c', hc', hp⟩
  cases hcol : collectColAux c' 0 rows with
  | none => rw [hcol] at hp; cases hp
  | some cells =>
      rw [hcol] at hp
      rcases List.mem_map.mp hp with ⟨p0, hcell, heq⟩
      have hr : p0.1 = r := congrArg (fun x => x.1.1) heq
      have hcc : c' = cc := congrArg (fun x => x.1.2) heq
      have hq : p0.2 = q := congrArg (fun x => x.2) heq
      rw [hcc] at hc' hcol
      refine ⟨one_le_of_mem_drop_range _ cc hc', ?_, by rw [hcol]; exact fun h => Option.noConfusion h⟩
      obtain ⟨_, hp2⟩ := collectColAux_mem cc rows 0 cells hcol p0.1 p0.2
        (by rw [← Prod.mk.eta (p := p0)] at hcell; exact hcell)
      rw [← hr, ← hq]
      simpa using hp2

theorem collectColAux_bad (cc : ℕ) (rows : List (List String)) :
    ∀ r0, (∃ row ∈ rows, isSkipCell (jsTrim (row.getD cc "")) = false ∧
        parseFloatQ (jsTrim (row.getD cc "")) = none) →
      collectColAux cc r0 rows = none := by
  induction rows with
  | nil =>
      intro r0 hbad
      rcases hbad with ⟨row, hm, _⟩
      cases hm
  | cons row rest ih =>
      intro r0 hbad
      rw [collectColAux]
      rcases hbad with ⟨brow, hbm, hbs, hbp⟩
      rcases List.mem_cons.mp hbm with h | h
      · subst h
        have hbs2 : isSkipCell (jsTrim (brow[cc]?.getD "")) = false := by
          rw [← List.getD_eq_getElem?_getD]
          exact hbs
        rw [if_neg (by simp [hbs2]), hbp]
      · by_cases hskip : isSkipCell (jsTrim (row.getD cc "")) = true
        · rw [if_pos hskip]
          exact ih (r0 + 1) ⟨brow, h, hbs, hbp⟩
        · rw [if_neg hskip]
          cases hpf : parseFloatQ (jsTrim (row.getD cc "")) with
          | none => rfl
          | some q0 =>
              rw [ih (r0 + 1) ⟨brow, h, hbs, hbp⟩]
              rfl

theorem applyHeatmap_subset (rows : List (List String)) (p : (ℕ × ℕ) × (ℤ × ℤ))
    (hp : p ∈ applyHeatmap rows) : ∃ q : ℚ, (p.1, q) ∈ colorableCells rows := by
  unfold applyHeatmap at hp
  by_cases h1 : rows.isEmpty = true
  · rw [if_pos h1] at hp; cases hp
  rw [if_neg h1] at hp
  by_cases h2 : (colorableCells rows).isEmpty = true
  · rw [if_pos h2] at hp; cases hp
  rw [if_neg h2] at hp
  by_cases h3 : heatMin rows = heatMax rows
  · rw [if_pos h3] at hp; cases hp
  rw [if_neg h3] at hp
  rcases List.mem_map.mp hp with ⟨q0, hq0, heq⟩
  refine ⟨q0.2, ?_⟩
  have hfst : q0.1 = p.1 := congrArg (fun x => x.1) heq
  rw [← hfst, Prod.mk.eta]
  exact hq0

theorem round_255 : round ((255 : ℚ)) = 255 := by
  have h : ((255 : ℚ)) = ((255 : ℤ) : ℚ) := by norm_num
  rw [h, round_intCast]

/-- Claim C8: `applyHeatmap` colours only cells in columns beyond the
first; a column containing even one non-empty, non-placeholder cell
that fails to parse receives no colour on any cell; when the single
global minimum of all colorable cells equals the global maximum nothing
is coloured; otherwise every colorable cell is coloured by the linear
map of its value on the one global `[min, max]` range — in particular a
cell at the global minimum gets the pure-blue extreme `(0, 255)` and a
cell at the global maximum the pure-red extreme `(255, 0)`. -/
theorem c8_heatmap (rows : List (List String)) (c : ℕ) :
    (∀ p ∈ applyHeatmap rows, 1 ≤ p.1.2) ∧
    ((∃ row ∈ rows, isSkipCell (jsTrim (row.getD c "")) = false ∧
        parseFloatQ (jsTrim (row.getD c "")) = none) →
      ∀ p ∈ applyHeatmap rows, p.1.2 ≠ c) ∧
    (heatMin rows = heatMax rows → applyHeatmap rows = []) ∧
    ((colorableCells rows).isEmpty = true → applyHeatmap rows = []) ∧
    (∀ r cc q, ((r, cc), q) ∈ colorableCells rows →
      parseFloatQ (jsTrim ((rows.getD r []).getD cc "")) = some q ∧
      heatMin rows ≤ q ∧ q ≤ heatMax rows) ∧
    (¬ heatMin rows = heatMax rows → ¬ (colorableCells rows).isEmpty = true →
      ¬ rows.isEmpty = true →
      applyHeatmap rows = (colorableCells rows).map (fun p =>
        (p.1, (round ((255 : ℚ) * ((p.2 - heatMin rows) / (heatMax rows - heatMin rows))),
               round ((255 : ℚ) * (1 - (p.2 - heatMin rows) / (heatMax rows - heatMin rows))))))) ∧
    (∀ r cc q, ((r, cc), q) ∈ colorableCells rows → ¬ heatMin rows = heatMax rows →
      ¬ rows.isEmpty = true →
      (q = heatMin rows → ((r, cc), ((0 : ℤ), (255 : ℤ))) ∈ applyHeatmap rows) ∧
      (q = heatMax rows → ((r, cc), ((255 : ℤ), (0 : ℤ))) ∈ applyHeatmap rows)) := by
  have heq6 : ¬ heatMin rows = heatMax rows → ¬ (colorableCells rows).isEmpty = true →
      ¬ rows.isEmpty = true →
      applyHeatmap rows = (colorableCells rows).map (fun p =>
        (p.1, (round ((255 : ℚ) * ((p.2 - heatMin rows) / (heatMax rows - heatMin rows))),
               round ((255 : ℚ) * (1 - (p.2 - heatMin rows) / (heatMax rows - heatMin rows)))))) := by
    intro h3 h2 h1
    unfold applyHeatmap
    rw [if_neg h1, if_neg h2, if_neg h3]
  refine ⟨?_, ?_, ?_, ?_, ?_, heq6, ?_⟩
  · intro p hp
    rcases applyHeatmap_subset rows p hp with ⟨q, hq⟩
    have := mem_colorableCells rows p.1.1 p.1.2 q (by rw [Prod.mk.eta]; exact hq)
    exact this.1
  · intro hbad p hp hcontr
    rcases applyHeatmap_subset rows p hp with ⟨q, hq⟩
    have hmc := mem_colorableCells rows p.1.1 p.1.2 q (by rw [Prod.mk.eta]; exact hq)
    apply hmc.2.2
    rw [hcontr]
    exact collectColAux_bad c rows 0 hbad
  · intro h3
    unfold applyHeatmap
    by_cases h1 : rows.isEmpty = true
    · rw [if_pos h1]
    · rw [if_neg h1]
      by_cases h2 : (colorableCells rows).isEmpty = true
      · rw [if_pos h2]
      · rw [if_neg h2, if_pos h3]
  · intro h2
    unfold applyHeatmap
    by_cases h1 : rows.isEmpty = true
    · rw [if_pos h1]
    · rw [if_neg h1, if_pos h2]
  · intro r cc q hmem
    have hmc := mem_colorableCells rows r cc q hmem
    exact ⟨hmc.2.1, heatMin_le rows ((r, cc), q) hmem, le_heatMax rows ((r, cc), q) hmem⟩
  · intro r cc q hmem h3 h1
    have h2 : ¬ (colorableCells rows).isEmpty = true := by
      intro hcontr
      rw [List.isEmpty_iff] at hcontr
      rw [hcontr] at hmem
      cases hmem
    have heq := heq6 h3 h2 h1
    constructor
    · intro hqmin
      have hz : ((q - heatMin rows) / (heatMax rows - heatMin rows)) = 0 := by
        rw [hqmin, sub_self, zero_div]
      have hmm := List.mem_map_of_mem (fun p : (ℕ × ℕ) × ℚ => (p.1,
        (round ((255 : ℚ) * ((p.2 - heatMin rows) / (heatMax rows - heatMin rows))),
         round ((255 : ℚ) * (1 - (p.2 - heatMin rows) / (heatMax rows - heatMin rows)))))) hmem
      rw [heq]
      simpa [hz, round_255] using hmm
    · intro hqmax
      have hone : ((q - heatMin rows) / (heatMax rows - heatMin rows)) = 1 := by
        rw [hqmax]
        exact div_self (sub_ne_zero.mpr (Ne.symm h3))
      have hmm := List.mem_map_of_mem (fun p : (ℕ × ℕ) × ℚ => (p.1,
        (round ((255 : ℚ) * ((p.2 - heatMin rows) / (heatMax rows - heatMin rows))),
         round ((255 : ℚ) * (1 - (p.2 - heatMin rows) / (heatMax rows - heatMin rows)))))) hmem
      rw [heq]
      simpa [hone, round_255] using hmm

/-- Witness for C8: a table whose only data column holds a non-numeric
cell is left entirely uncoloured. -/
theorem c8_witness : applyHeatmap [["a", "x"]] = [] :=
  (c8_heatmap [["a", "x"]] 1).2.2.2.1 (by decide)
